import Mathlib

/-!
Verification of the `ridiculous` RIDI-book decryption tool.

The development shallowly embeds the decryption core of the repository:
key derivation from the `.dat` key file (`gui.rs::extract_key_from_dat`,
`main.rs::decrypt_key`), V1 whole-file content decryption
(`gui.rs::decrypt_v1_book`, `main.rs::decrypt_book_content`), V11 per-entry
archive decryption (`gui.rs::decrypt_v11_book`,
`gui.rs::decrypt_v11_file_content`), filename resolution
(`types.rs::BookInfo::detect_format_and_filename`), output-path selection,
the retry loop (`main.rs::process_single_book`), the resume filter and the
batch/interactive schedulers over `ProcessingState` (`main.rs`).

Bytes are modelled as `Nat` (values < 256 where relevant).  The AES-128 block
cipher lives in the external `aes` crate, so every embedded function is
parameterised over the block transformation; the CBC block mode and PKCS#7
padding of the `cbc`/`block-padding` crates are embedded concretely, following
their documented semantics: decryption requires a nonempty ciphertext whose
length is a multiple of the block size and fails on invalid padding.
-/

/-- Decidable equality for `Except`, needed to evaluate the embeddings on
concrete inputs. -/
instance (ε α : Type) [DecidableEq ε] [DecidableEq α] : DecidableEq (Except ε α) :=
  fun x y =>
    match x, y with
    | .ok a, .ok b =>
      if h : a = b then isTrue (by rw [h]) else isFalse (by simpa using h)
    | .error a, .error b =>
      if h : a = b then isTrue (by rw [h]) else isFalse (by simpa using h)
    | .ok _, .error _ => isFalse (by simp)
    | .error _, .ok _ => isFalse (by simp)

/-! ## Byte-list helpers -/

/-- Pointwise XOR of two byte lists (length of the shorter one). -/
def zipXor (a b : List Nat) : List Nat := List.zipWith Nat.xor a b

/-- Copy up to 16 bytes of `src` into a zeroed 16-byte buffer: the
`let mut buf = [0u8; 16]; buf[..n].copy_from_slice(&src[..n])` idiom used by
both key-buffer constructions in `decrypt_key` / `extract_key_from_dat`. -/
def copyZeroPad16 (src : List Nat) : List Nat :=
  src.take 16 ++ List.replicate (16 - src.length) 0

/-- Split a byte list into 16-byte chunks; the final chunk may be shorter.
Explicit fuel keeps the definition structurally recursive (any fuel at least
the list length gives the intended result). -/
def chunksGo : Nat → List Nat → List (List Nat)
  | _, [] => []
  | 0, _ :: _ => []
  | fuel + 1, b :: rest => ((b :: rest).take 16) :: chunksGo fuel ((b :: rest).drop 16)

/-- Split a byte list into 16-byte chunks. -/
def chunks16 (l : List Nat) : List (List Nat) := chunksGo l.length l

/-! ## PKCS#7 padding (`block-padding` crate, block size 16) -/

/-- PKCS#7 padding: append `k` bytes of value `k`, where `k = 16 - len % 16`. -/
def pkcs7pad (pt : List Nat) : List Nat :=
  pt ++ List.replicate (16 - pt.length % 16) (16 - pt.length % 16)

/-- PKCS#7 unpadding: the last byte `n` must satisfy `1 ≤ n ≤ 16` and the last
`n` bytes must all equal `n`; those bytes are stripped.  Fails otherwise. -/
def pkcs7unpad (l : List Nat) : Option (List Nat) :=
  match l.getLast? with
  | none => none
  | some n =>
    if 1 ≤ n ∧ n ≤ 16 ∧ n ≤ l.length ∧ (l.drop (l.length - n)).all (fun b => b == n)
    then some (l.take (l.length - n)) else none

/-! ## CBC block mode (`cbc` crate), parameterised over the block cipher -/

/-- CBC encryption over a list of plaintext blocks: each block is XORed with
the previous ciphertext block (initially the IV) and then enciphered. -/
def cbcEncBlocks (E : List Nat → List Nat) : List Nat → List (List Nat) → List (List Nat)
  | _, [] => []
  | prev, b :: bs =>
    let c := E (zipXor b prev)
    c :: cbcEncBlocks E c bs

/-- CBC decryption over a list of ciphertext blocks: each block is deciphered
and XORed with the previous ciphertext block (initially the IV). -/
def cbcDecBlocks (D : List Nat → List Nat) : List Nat → List (List Nat) → List (List Nat)
  | _, [] => []
  | prev, c :: cs => zipXor (D c) prev :: cbcDecBlocks D c cs

/-- Encrypt-with-padding: PKCS#7-pad the plaintext, then CBC-encrypt it under
block cipher `E` with initialisation vector `iv`. -/
def cbcEncryptPkcs7 (E : List Nat → List Nat) (iv pt : List Nat) : List Nat :=
  (cbcEncBlocks E iv (chunks16 (pkcs7pad pt))).flatten

/-- The semantics of `cbc::Decryptor::…::decrypt_padded_mut::<Pkcs7>`: the
ciphertext must be nonempty and block-aligned; CBC-decrypt it and strip the
PKCS#7 padding, failing on a padding error. -/
def cbcDecryptPkcs7 (D : List Nat → List Nat) (iv ct : List Nat) : Option (List Nat) :=
  if ct.length % 16 = 0 ∧ 0 < ct.length then
    pkcs7unpad ((cbcDecBlocks D iv (chunks16 ct)).flatten)
  else none

/-! ## Strict UTF-8 (the validation performed by Rust's `str::from_utf8`) -/

/-- Is `b` a UTF-8 continuation byte (`0x80..=0xBF`)? -/
def isContByte (b : Nat) : Bool := decide (0x80 ≤ b) && decide (b < 0xC0)

/-- Strict UTF-8 decoding of a byte list into its list of code points,
rejecting overlong encodings, surrogates and code points above `0x10FFFF`,
exactly as `str::from_utf8` does.  Fuel-based for kernel computability; any
fuel at least the list length gives the intended result. -/
def utf8DecodeGo : Nat → List Nat → Option (List Nat)
  | _, [] => some []
  | 0, _ :: _ => none
  | fuel + 1, b :: rest =>
    if b < 0x80 then
      (utf8DecodeGo fuel rest).map (fun cs => b :: cs)
    else if b < 0xC2 then none
    else if b < 0xE0 then
      match rest with
      | b1 :: r =>
        if isContByte b1 then
          (utf8DecodeGo fuel r).map (fun cs => ((b - 0xC0) * 0x40 + (b1 - 0x80)) :: cs)
        else none
      | [] => none
    else if b < 0xF0 then
      match rest with
      | b1 :: b2 :: r =>
        if (b != 0xE0 || decide (0xA0 ≤ b1)) && (b != 0xED || decide (b1 < 0xA0)) &&
            isContByte b1 && isContByte b2 then
          (utf8DecodeGo fuel r).map (fun cs =>
            ((b - 0xE0) * 0x1000 + (b1 - 0x80) * 0x40 + (b2 - 0x80)) :: cs)
        else none
      | _ => none
    else if b < 0xF5 then
      match rest with
      | b1 :: b2 :: b3 :: r =>
        if (b != 0xF0 || decide (0x90 ≤ b1)) && (b != 0xF4 || decide (b1 < 0x90)) &&
            isContByte b1 && isContByte b2 && isContByte b3 then
          (utf8DecodeGo fuel r).map (fun cs =>
            ((b - 0xF0) * 0x40000 + (b1 - 0x80) * 0x1000 + (b2 - 0x80) * 0x40 + (b3 - 0x80)) :: cs)
        else none
      | _ => none
    else none

/-- Strict UTF-8 decoding of a byte list into its code points. -/
def utf8Decode (l : List Nat) : Option (List Nat) := utf8DecodeGo l.length l

/-- UTF-8 encoding of one code point. -/
def utf8EncodeChar (c : Nat) : List Nat :=
  if c < 0x80 then [c]
  else if c < 0x800 then [0xC0 + c / 0x40, 0x80 + c % 0x40]
  else if c < 0x10000 then [0xE0 + c / 0x1000, 0x80 + (c / 0x40) % 0x40, 0x80 + c % 0x40]
  else [0xF0 + c / 0x40000, 0x80 + (c / 0x1000) % 0x40, 0x80 + (c / 0x40) % 0x40, 0x80 + c % 0x40]

/-- UTF-8 encoding of a list of code points. -/
def utf8Encode (cs : List Nat) : List Nat := (cs.map utf8EncodeChar).flatten

/-- Rust's `str::is_char_boundary` on the UTF-8 bytes `l`: position 0, the end
of the text, or any position holding a non-continuation byte. -/
def isCharBoundary (l : List Nat) (i : Nat) : Bool :=
  if i = 0 then true
  else if i < l.length then !(isContByte (l.getD i 0))
  else i == l.length

/-! ## Key derivation (`gui.rs::extract_key_from_dat`, `main.rs::decrypt_key`) -/

/-- Failure cases of key derivation, in the order the code checks them. -/
inductive KeyErr
  | tooSmall
  | decryptFailed
  | invalidUtf8
  | tooShort
deriving DecidableEq

/-- Outcome of key derivation: a key, a returned error, or a Rust panic
(out-of-bounds / non-boundary string slice). -/
inductive KeyOut
  | ok (key : List Nat)
  | error (e : KeyErr)
  | panic
deriving DecidableEq

/-- The 16-byte AES key derived from the device id: its first 16 UTF-8 bytes,
zero-padded. -/
def deviceKey (device : List Nat) : List Nat := copyZeroPad16 device

/-- Embedding of `gui.rs::extract_key_from_dat` (and of the semantically
identical `main.rs::decrypt_key`, minus file I/O): reject key files smaller
than 32 bytes; CBC/PKCS#7-decrypt the remainder after the 16-byte IV under the
device-derived key; require valid UTF-8 of byte length at least 84; slice the
decrypted text at byte offsets `68..84` (a Rust `&str[68..84]` slice, which
panics off char boundaries) and copy it zero-padded into a 16-byte buffer.
`aesDec` abstracts AES-128 block decryption keyed by its first argument. -/
def extract_key_from_dat (aesDec : List Nat → List Nat → List Nat)
    (dat device : List Nat) : KeyOut :=
  if dat.length < 32 then .error .tooSmall
  else
    match cbcDecryptPkcs7 (aesDec (deviceKey device)) (dat.take 16) (dat.drop 16) with
    | none => .error .decryptFailed
    | some pt =>
      match utf8Decode pt with
      | none => .error .invalidUtf8
      | some _ =>
        if pt.length < 84 then .error .tooShort
        else if isCharBoundary pt 68 && isCharBoundary pt 84 then
          .ok (copyZeroPad16 ((pt.take 84).drop 68))
        else .panic

/-- Follows the spec's words for claim C1 (refinement comparison only): the
content key formed from character positions 68 through 84 (exclusive) of the
decoded text, copied as raw bytes, zero-padded if fewer than 16 bytes. -/
def specCharSliceKey (pt : List Nat) : Option (List Nat) :=
  (utf8Decode pt).map (fun chars => copyZeroPad16 (utf8Encode ((chars.take 84).drop 68)))

/-! ## Content decryption, V1 (`gui.rs::decrypt_v1_book`,
`main.rs::decrypt_book_content`) -/

/-- Failure cases of V1 content decryption. -/
inductive V1Err
  | tooSmall
  | decryptFailed
deriving DecidableEq

/-- Embedding of `gui.rs::decrypt_v1_book` / `main.rs::decrypt_book_content`
(minus file I/O): reject files smaller than 16 bytes; the first 16 bytes are
the IV; CBC/PKCS#7-decrypt the remainder under the content key.  `aesDecK` is
AES-128 block decryption already keyed with the content key. -/
def decrypt_v1_book (aesDecK : List Nat → List Nat) (bookFile : List Nat) :
    Except V1Err (List Nat) :=
  if bookFile.length < 16 then .error .tooSmall
  else
    match cbcDecryptPkcs7 aesDecK (bookFile.take 16) (bookFile.drop 16) with
    | some pt => .ok pt
    | none => .error .decryptFailed

/-! ## Content decryption, V11 (`gui.rs::decrypt_v11_book`,
`gui.rs::decrypt_v11_file_content`) -/

/-- An input archive entry: name and raw bytes. -/
structure ZipEntry where
  name : String
  data : List Nat
deriving DecidableEq

/-- Compression method recorded for an output archive entry. -/
inductive CompressionMethod
  | deflated
  | stored
deriving DecidableEq

/-- An output archive entry: name, bytes, and the compression method passed to
the zip writer. -/
structure OutEntry where
  name : String
  data : List Nat
  method : CompressionMethod
deriving DecidableEq

/-- Embedding of `gui.rs::decrypt_v11_file_content`: reject entries smaller
than 16 bytes; IV is the first 16 bytes; CBC/PKCS#7-decrypt the rest. -/
def decrypt_v11_file_content (aesDecK : List Nat → List Nat) (encData : List Nat) :
    Option (List Nat) :=
  if encData.length < 16 then none
  else cbcDecryptPkcs7 aesDecK (encData.take 16) (encData.drop 16)

/-- Embedding of `gui.rs::decrypt_v11_book`: every input entry is written to
the output archive under its original name with deflate compression; an entry
whose individual decryption fails keeps its original bytes. -/
def decrypt_v11_book (aesDecK : List Nat → List Nat) (entries : List ZipEntry) :
    List OutEntry :=
  entries.map (fun e =>
    { name := e.name
      data := match decrypt_v11_file_content aesDecK e.data with
              | some d => d
              | none => e.data
      method := CompressionMethod.deflated })

/-! ## String helpers for filename resolution -/

/-- Does the first list start with the second? -/
def listStartsWith : List Char → List Char → Bool
  | _, [] => true
  | [], _ :: _ => false
  | a :: as, b :: bs => a == b && listStartsWith as bs

/-- Rust `str::starts_with`. -/
def strStartsWith (s p : String) : Bool := listStartsWith s.data p.data

/-- Does `needle` occur as a contiguous sublist of `hay`? -/
def containsSub : List Char → List Char → Bool
  | hay, needle =>
    listStartsWith hay needle ||
      match hay with
      | [] => false
      | _ :: t => containsSub t needle

/-- Rust `str::contains` with a literal pattern. -/
def strContains (s sub : String) : Bool := containsSub s.data sub.data

/-- ASCII lowercasing, as `str::to_lowercase` acts on ASCII file extensions. -/
def strToLower (s : String) : String := String.mk (s.data.map Char.toLower)

/-- Rust `Path::extension` on a bare file name: the portion after the last
dot, unless the name has no dot or its only dot is the leading character. -/
def rustExtension (name : String) : Option String :=
  let r := name.data.reverse
  if r.contains '.' then
    let revExt := r.takeWhile (fun c => c != '.')
    match r.dropWhile (fun c => c != '.') with
    | [] => none
    | _ :: revStem => if revStem.isEmpty then none else some (String.mk revExt.reverse)
  else none

/-! ## Filename resolution (`types.rs::BookInfo::detect_format_and_filename`) -/

/-- Book formats distinguished by the resolver. -/
inductive BookFormat
  | epub
  | pdf
  | unknown
deriving DecidableEq

/-- Extension string of a format (`types.rs::BookFormat::as_str`). -/
def BookFormat.as_str : BookFormat → String
  | .epub => "epub"
  | .pdf => "pdf"
  | .unknown => "unknown"

/-- The loop body of `detect_format_and_filename`: walk the directory listing
remembering the first plain (unversioned) epub and pdf; return immediately on
the first version-marked (`".v"`-containing) epub or pdf; after the walk fall
back to the plain epub, then the plain pdf, then the default `{id}.epub`. -/
def detectLoop (book_id : String) :
    List String → Option String → Option String → BookFormat × String
  | [], plainEpub, plainPdf =>
    match plainEpub with
    | some e => (BookFormat.epub, e)
    | none =>
      match plainPdf with
      | some p => (BookFormat.pdf, p)
      | none => (BookFormat.epub, book_id ++ ".epub")
  | f :: rest, plainEpub, plainPdf =>
    if strStartsWith f book_id then
      match rustExtension f with
      | some ext =>
        if strToLower ext = "epub" then
          if strContains f ".v" then (BookFormat.epub, f)
          else detectLoop book_id rest (if plainEpub.isNone then some f else plainEpub) plainPdf
        else if strToLower ext = "pdf" then
          if strContains f ".v" then (BookFormat.pdf, f)
          else detectLoop book_id rest plainEpub (if plainPdf.isNone then some f else plainPdf)
        else detectLoop book_id rest plainEpub plainPdf
      | none => detectLoop book_id rest plainEpub plainPdf
    else detectLoop book_id rest plainEpub plainPdf

/-- Embedding of `types.rs::BookInfo::detect_format_and_filename`, taking the
directory's file listing (in iteration order) as input.  The `Except` wrapper
mirrors the Rust `miette::Result`; after a successful directory read the
function always returns `Ok`. -/
def detect_format_and_filename (files : List String) (book_id : String) :
    Except String (BookFormat × String) :=
  Except.ok (detectLoop book_id files none none)

/-- Is `f` a version-marked content file for `book_id` (starts with the id,
has extension epub or pdf case-insensitively, and contains `".v"`)? -/
def isVersionedBookFile (book_id f : String) : Bool :=
  strStartsWith f book_id &&
    (match rustExtension f with
     | some ext => strToLower ext = "epub" || strToLower ext = "pdf"
     | none => false) &&
    strContains f ".v"

/-- Is `f` a plain (unversioned) epub for `book_id`? -/
def isPlainEpub (book_id f : String) : Bool :=
  strStartsWith f book_id &&
    (match rustExtension f with
     | some ext => strToLower ext = "epub"
     | none => false) &&
    !strContains f ".v"

/-- Is `f` a plain (unversioned) pdf for `book_id`? -/
def isPlainPdf (book_id f : String) : Bool :=
  strStartsWith f book_id &&
    (match rustExtension f with
     | some ext => strToLower ext = "pdf"
     | none => false) &&
    !strContains f ".v"

/-- Format assigned to a resolved file: by its (lowercased) extension. -/
def detFmt (f : String) : BookFormat :=
  match rustExtension f with
  | some ext => if strToLower ext = "epub" then BookFormat.epub
                else if strToLower ext = "pdf" then BookFormat.pdf
                else BookFormat.unknown
  | none => BookFormat.unknown

/-! ## Output naming and locations (`types.rs::get_output_filename`,
`main.rs::get_output_path`, `gui.rs::decrypt_single_book`) -/

/-- Embedding of `types.rs::BookInfo::get_output_filename`:
`{id}_decrypted.{extension}`. -/
def get_output_filename (id : String) (fmt : BookFormat) : String :=
  id ++ "_decrypted." ++ fmt.as_str

/-- Path concatenation (`PathBuf::join` with a relative file name). -/
def pathJoin (dir file : String) : String := dir ++ "/" ++ file

/-- Embedding of `main.rs::get_output_path`: the output file name joined onto
the process's current working directory.  No configuration value is
consulted. -/
def get_output_path (cwd : String) (id : String) (fmt : BookFormat) : String :=
  pathJoin cwd (get_output_filename id fmt)

/-- Embedding of the output-path choice in `gui.rs::decrypt_single_book`:
the explicit output directory if set, else the book directory's parent, else
the book directory itself. -/
def gui_output_path (output_dir book_parent : Option String) (book_path : String)
    (id : String) (fmt : BookFormat) : String :=
  match output_dir with
  | some d => pathJoin d (get_output_filename id fmt)
  | none =>
    match book_parent with
    | some p => pathJoin p (get_output_filename id fmt)
    | none => pathJoin book_path (get_output_filename id fmt)

/-- Follows the spec's words for claim C8 (refinement comparison only): output
written to the explicit output directory, else the configured library path,
else the book directory's parent. -/
def specOutputPath (output_dir library_path : Option String) (book_parent : String)
    (id : String) (fmt : BookFormat) : String :=
  match output_dir with
  | some d => pathJoin d (get_output_filename id fmt)
  | none =>
    match library_path with
    | some lp => pathJoin lp (get_output_filename id fmt)
    | none => pathJoin book_parent (get_output_filename id fmt)

/-! ## Retry loop (`main.rs::process_single_book`, `main.rs::is_retryable_error`) -/

/-- Embedding of `main.rs::is_retryable_error`: the lowercased error message
contains one of the retryable markers. -/
def is_retryable_error (msg : String) : Bool :=
  strContains (strToLower msg) "timeout" ||
  strContains (strToLower msg) "connection" ||
  strContains (strToLower msg) "network" ||
  strContains (strToLower msg) "temporary" ||
  strContains (strToLower msg) "io error"

/-- Observable outcome of one `process_single_book` run. -/
inductive RunOut
  | ok
  | err (e : String)
  | panicked
deriving DecidableEq

/-- Embedding of the `while retries > 0` loop of `main.rs::process_single_book`.
`attempts k` is the result of the `k`-th decryption attempt.  `retries` is
passed through each iteration unchanged, exactly as in the source, which
initialises `let mut retries = 3` and never decrements it.  `fuel` bounds how
many iterations we observe: `none` means the loop is still running after
`fuel` iterations.  Exiting the loop hits `unreachable!()`, modelled as
`panicked`. -/
def process_single_book_go (attempts : Nat → Except String Unit) (retries k : Nat) :
    Nat → Option RunOut
  | 0 => none
  | fuel + 1 =>
    if 0 < retries then
      match attempts k with
      | .ok _ => some .ok
      | .error e =>
        if 1 < retries ∧ is_retryable_error e then
          process_single_book_go attempts retries (k + 1) fuel
        else some (.err e)
    else some .panicked

/-- Embedding of `main.rs::process_single_book`: the retry loop entered with
`retries = 3`. -/
def process_single_book (attempts : Nat → Except String Unit) (fuel : Nat) :
    Option RunOut :=
  process_single_book_go attempts 3 0 fuel

/-! ## Processing state and schedulers (`main.rs`) -/

/-- Embedding of `main.rs::ProcessingState`. -/
structure ProcessingState where
  completed : List String
  failed : List (String × String)
  in_progress : List String
deriving DecidableEq

/-- `ProcessingState::default()`: all lists empty. -/
def ProcessingState.mkDefault : ProcessingState := ⟨[], [], []⟩

/-- How both schedulers fold one finished book into the state: success is
appended to `completed`, failure (with its message) to `failed`. -/
def recordResult (s : ProcessingState) (idr : String × Except String Unit) :
    ProcessingState :=
  match idr.2 with
  | .ok _ => { s with completed := s.completed ++ [idr.1] }
  | .error e => { s with failed := s.failed ++ [(idr.1, e)] }

/-- Embedding of the result-collection loop of `main.rs::process_books_batch`:
fold every per-book result into the state in completion order. -/
def process_books_batch (s : ProcessingState)
    (results : List (String × Except String Unit)) : ProcessingState :=
  results.foldl recordResult s

/-- Embedding of `main.rs::process_books_interactive`: fold results in order,
but after the `n`-th failure stop early unless `continueAfterFail n` (the
user's y/n answer) holds. -/
def process_books_interactive (continueAfterFail : Nat → Bool) :
    ProcessingState → Nat → List (String × Except String Unit) → ProcessingState
  | s, _, [] => s
  | s, k, (id, .ok _) :: rest =>
    process_books_interactive continueAfterFail
      { s with completed := s.completed ++ [id] } k rest
  | s, k, (id, .error e) :: rest =>
    let s' := { s with failed := s.failed ++ [(id, e)] }
    if continueAfterFail k then process_books_interactive continueAfterFail s' (k + 1) rest
    else s'

/-! ## Resume filter (`main.rs::main`, lines 127–137) -/

/-- The per-book data the resume filter consults: the id and whether
`is_already_decrypted` holds for it (an environment fact, supplied as a
field). -/
structure BookLite where
  id : String
  alreadyDecrypted : Bool
deriving DecidableEq

/-- The filter predicate of `main.rs::main`: keep everything under `--force`;
under `--resume` keep books whose id is not in the loaded `completed` list;
otherwise keep books not detected as already decrypted. -/
def keepBook (force resume : Bool) (completed : List String) (b : BookLite) : Bool :=
  if force then true
  else if resume then !(completed.contains b.id)
  else !b.alreadyDecrypted

/-- The work set `books_to_process` computed in `main.rs::main`. -/
def books_to_process (force resume : Bool) (completed : List String)
    (books : List BookLite) : List BookLite :=
  books.filter (keepBook force resume completed)

/-! ## General lemmas: XOR, chunking, padding -/

/-- XOR is an involution on each byte. -/
theorem xor_xor_cancel (a b : Nat) : Nat.xor (Nat.xor a b) b = a := by
  show (a ^^^ b) ^^^ b = a
  rw [Nat.xor_assoc, Nat.xor_self, Nat.xor_zero]

/-- Length of a pointwise XOR. -/
theorem zipXor_length (a b : List Nat) : (zipXor a b).length = min a.length b.length :=
  List.length_zipWith ..

/-- XORing twice with the same equal-length list is the identity. -/
theorem zipXor_cancel : ∀ a b : List Nat, a.length = b.length → zipXor (zipXor a b) b = a
  | [], [], _ => rfl
  | [], _ :: _, h => by simp at h
  | _ :: _, [], h => by simp at h
  | a :: as, b :: bs, h => by
    have ih := zipXor_cancel as bs (by simpa using h)
    simp only [zipXor, List.zipWith_cons_cons] at ih ⊢
    rw [xor_xor_cancel, ih]

/-- The chunking function does not depend on the fuel, provided the fuel
covers the list length. -/
theorem chunksGo_fuel : ∀ (f₁ f₂ : Nat) (l : List Nat),
    l.length ≤ f₁ → l.length ≤ f₂ → chunksGo f₁ l = chunksGo f₂ l := by
  intro f₁
  induction f₁ with
  | zero =>
    intro f₂ l h₁ _
    have hl : l = [] := List.length_eq_zero.mp (Nat.le_zero.mp h₁)
    subst hl
    cases f₂ <;> rfl
  | succ n ih =>
    intro f₂ l h₁ h₂
    cases l with
    | nil => cases f₂ <;> rfl
    | cons b rest =>
      cases f₂ with
      | zero => simp at h₂
      | succ m =>
        show ((b :: rest).take 16) :: chunksGo n ((b :: rest).drop 16)
            = ((b :: rest).take 16) :: chunksGo m ((b :: rest).drop 16)
        have hd : ((b :: rest).drop 16).length = (b :: rest).length - 16 := List.length_drop ..
        have hlen : (b :: rest).length = rest.length + 1 := by simp
        rw [ih m ((b :: rest).drop 16) (by omega) (by omega)]

/-- Unfolding of `chunks16` on a nonempty list. -/
theorem chunks16_cons_of_ne (l : List Nat) (h : l ≠ []) :
    chunks16 l = l.take 16 :: chunks16 (l.drop 16) := by
  obtain ⟨b, rest, rfl⟩ := List.exists_cons_of_ne_nil h
  show chunksGo ((b :: rest).length) (b :: rest) = _
  have hlen : (b :: rest).length = rest.length + 1 := by simp
  rw [hlen]
  show ((b :: rest).take 16) :: chunksGo rest.length ((b :: rest).drop 16) = _
  have hd : ((b :: rest).drop 16).length = (b :: rest).length - 16 := List.length_drop ..
  rw [chunksGo_fuel rest.length ((b :: rest).drop 16).length ((b :: rest).drop 16)
    (by omega) le_rfl]
  rfl

/-- Flattening the chunks recovers the original list (fueled version). -/
theorem flatten_chunks16_aux : ∀ (n : Nat) (l : List Nat),
    l.length ≤ n → (chunks16 l).flatten = l := by
  intro n
  induction n with
  | zero =>
    intro l h
    have hl : l = [] := List.length_eq_zero.mp (Nat.le_zero.mp h)
    subst hl; rfl
  | succ n ih =>
    intro l h
    by_cases hl : l = []
    · subst hl; rfl
    · rw [chunks16_cons_of_ne l hl]
      have hpos : 0 < l.length := List.length_pos.mpr hl
      have hd : (l.drop 16).length = l.length - 16 := List.length_drop ..
      simp only [List.flatten_cons]
      rw [ih (l.drop 16) (by omega), List.take_append_drop]

/-- Flattening the chunks recovers the original list. -/
theorem flatten_chunks16 (l : List Nat) : (chunks16 l).flatten = l :=
  flatten_chunks16_aux l.length l le_rfl

/-- Every chunk of a block-aligned list has length 16 (fueled version). -/
theorem chunks16_mem_length_aux : ∀ (n : Nat) (l : List Nat), l.length ≤ n →
    l.length % 16 = 0 → ∀ c ∈ chunks16 l, c.length = 16 := by
  intro n
  induction n with
  | zero =>
    intro l h _ c hc
    have hl : l = [] := List.length_eq_zero.mp (Nat.le_zero.mp h)
    subst hl; simp [chunks16, chunksGo] at hc
  | succ n ih =>
    intro l h hmod c hc
    by_cases hl : l = []
    · subst hl; simp [chunks16, chunksGo] at hc
    · rw [chunks16_cons_of_ne l hl] at hc
      have hpos : 0 < l.length := List.length_pos.mpr hl
      have h16 : 16 ≤ l.length := by omega
      have hd : (l.drop 16).length = l.length - 16 := List.length_drop ..
      rcases List.mem_cons.mp hc with hc | hc
      · subst hc; simp [List.length_take]; omega
      · exact ih (l.drop 16) (by omega) (by omega) c hc

/-- Every chunk of a block-aligned list has length 16. -/
theorem chunks16_mem_length (l : List Nat) (h : l.length % 16 = 0) :
    ∀ c ∈ chunks16 l, c.length = 16 :=
  chunks16_mem_length_aux l.length l le_rfl h

/-- Prepending one 16-byte block to a list is one chunking step. -/
theorem chunks16_append16 (c r : List Nat) (hc : c.length = 16) :
    chunks16 (c ++ r) = c :: chunks16 r := by
  have hne : c ++ r ≠ [] := by
    intro h
    have := congrArg List.length h
    simp [hc] at this
  rw [chunks16_cons_of_ne _ hne, List.take_left' hc, List.drop_left' hc]

/-- Chunking the flattening of 16-byte blocks recovers the blocks. -/
theorem chunks16_flatten_of_mem : ∀ cs : List (List Nat),
    (∀ c ∈ cs, c.length = 16) → chunks16 cs.flatten = cs
  | [], _ => rfl
  | c :: cs, h => by
    simp only [List.flatten_cons]
    rw [chunks16_append16 c cs.flatten (h c (by simp))]
    rw [chunks16_flatten_of_mem cs (fun x hx => h x (by simp [hx]))]

/-- Length of the flattening of 16-byte blocks. -/
theorem flatten_length_16 : ∀ cs : List (List Nat),
    (∀ c ∈ cs, c.length = 16) → cs.flatten.length = 16 * cs.length
  | [], _ => rfl
  | c :: cs, h => by
    simp only [List.flatten_cons, List.length_append, List.length_cons]
    rw [h c (by simp), flatten_length_16 cs (fun x hx => h x (by simp [hx]))]
    ring

/-- The last element of a list extended by a nonempty replicate block. -/
theorem getLast?_append_replicate (l : List Nat) (k x : Nat) (h : 0 < k) :
    (l ++ List.replicate k x).getLast? = some x := by
  cases k with
  | zero => omega
  | succ n =>
    rw [List.replicate_succ', ← List.append_assoc]
    exact List.getLast?_concat _

/-- Every element of a replicate list passes the equality test. -/
theorem all_replicate_self (k x : Nat) :
    (List.replicate k x).all (fun b => b == x) = true := by
  simp [List.all_eq_true, List.mem_replicate]

/-- Padded length. -/
theorem pkcs7pad_length (pt : List Nat) :
    (pkcs7pad pt).length = pt.length + (16 - pt.length % 16) := by
  simp [pkcs7pad]

/-- Padding makes the length a multiple of the block size. -/
theorem pkcs7pad_mod (pt : List Nat) : (pkcs7pad pt).length % 16 = 0 := by
  rw [pkcs7pad_length]; omega

/-- Padding always appends at least one byte. -/
theorem pkcs7pad_pos (pt : List Nat) : 0 < (pkcs7pad pt).length := by
  rw [pkcs7pad_length]; omega

/-- PKCS#7 unpadding inverts PKCS#7 padding. -/
theorem pkcs7unpad_pad (pt : List Nat) : pkcs7unpad (pkcs7pad pt) = some pt := by
  have hlast : (pkcs7pad pt).getLast? = some (16 - pt.length % 16) := by
    unfold pkcs7pad
    exact getLast?_append_replicate _ _ _ (by omega)
  have hlen := pkcs7pad_length pt
  have hsub : (pkcs7pad pt).length - (16 - pt.length % 16) = pt.length := by omega
  have hdrop : (pkcs7pad pt).drop pt.length
      = List.replicate (16 - pt.length % 16) (16 - pt.length % 16) := by
    unfold pkcs7pad
    exact List.drop_left' rfl
  have htake : (pkcs7pad pt).take pt.length = pt := by
    unfold pkcs7pad
    exact List.take_left' rfl
  unfold pkcs7unpad
  simp only [hlast]
  rw [if_pos]
  · rw [hsub, htake]
  · refine ⟨by omega, by omega, by omega, ?_⟩
    rw [hsub, hdrop]
    exact all_replicate_self ..

/-! ## General lemmas: CBC -/

/-- CBC encryption produces one ciphertext block per plaintext block. -/
theorem cbcEncBlocks_count (E : List Nat → List Nat) :
    ∀ (bs : List (List Nat)) (prev : List Nat),
      (cbcEncBlocks E prev bs).length = bs.length
  | [], _ => rfl
  | b :: bs, prev => by
    simp only [cbcEncBlocks, List.length_cons]
    rw [cbcEncBlocks_count E bs]

/-- Under a length-preserving block cipher, CBC ciphertext blocks are all
16 bytes long. -/
theorem cbcEncBlocks_length (E : List Nat → List Nat)
    (hE : ∀ b : List Nat, b.length = 16 → (E b).length = 16) :
    ∀ (bs : List (List Nat)) (prev : List Nat), prev.length = 16 →
      (∀ b ∈ bs, b.length = 16) → ∀ c ∈ cbcEncBlocks E prev bs, c.length = 16
  | [], _, _, _ => by simp [cbcEncBlocks]
  | b :: bs, prev, hp, hbs => by
    have hxlen : (zipXor b prev).length = 16 := by
      rw [zipXor_length, hbs b (by simp), hp]; omega
    have hclen : (E (zipXor b prev)).length = 16 := hE _ hxlen
    intro c hc
    simp only [cbcEncBlocks, List.mem_cons] at hc
    rcases hc with hc | hc
    · rw [hc]; exact hclen
    · exact cbcEncBlocks_length E hE bs (E (zipXor b prev)) hclen
        (fun x hx => hbs x (by simp [hx])) c hc

/-- CBC decryption inverts CBC encryption, block by block, for any block
cipher pair that is inverse on 16-byte blocks. -/
theorem cbcDecBlocks_encBlocks (E D : List Nat → List Nat)
    (hE : ∀ b : List Nat, b.length = 16 → (E b).length = 16)
    (hD : ∀ b : List Nat, b.length = 16 → D (E b) = b) :
    ∀ (bs : List (List Nat)) (prev : List Nat), prev.length = 16 →
      (∀ b ∈ bs, b.length = 16) →
      cbcDecBlocks D prev (cbcEncBlocks E prev bs) = bs
  | [], _, _, _ => rfl
  | b :: bs, prev, hp, hbs => by
    have hblen : b.length = 16 := hbs b (by simp)
    have hxlen : (zipXor b prev).length = 16 := by rw [zipXor_length, hblen, hp]; omega
    have hclen : (E (zipXor b prev)).length = 16 := hE _ hxlen
    simp only [cbcEncBlocks, cbcDecBlocks]
    rw [hD _ hxlen, zipXor_cancel b prev (by omega)]
    rw [cbcDecBlocks_encBlocks E D hE hD bs (E (zipXor b prev)) hclen
      (fun x hx => hbs x (by simp [hx]))]

/-! ## Claim C3: V1 round-trip -/

/-- C3 (confirmed): for every plaintext, 16-byte IV and block cipher pair
`E`/`D` that is inverse and length-preserving on 16-byte blocks (as AES-128
under one key is), encrypting with AES-128-CBC/PKCS7 and prepending the IV,
then running the V1 content decryptor, reproduces the plaintext exactly. -/
theorem c3_v1_roundtrip (E D : List Nat → List Nat) (iv pt : List Nat)
    (hiv : iv.length = 16)
    (hE : ∀ b : List Nat, b.length = 16 → (E b).length = 16)
    (hD : ∀ b : List Nat, b.length = 16 → D (E b) = b) :
    decrypt_v1_book D (iv ++ cbcEncryptPkcs7 E iv pt) = Except.ok pt := by
  have hpadmod := pkcs7pad_mod pt
  have hpadpos := pkcs7pad_pos pt
  have hbs16 : ∀ b ∈ chunks16 (pkcs7pad pt), b.length = 16 :=
    chunks16_mem_length _ hpadmod
  have hcs16 : ∀ c ∈ cbcEncBlocks E iv (chunks16 (pkcs7pad pt)), c.length = 16 :=
    cbcEncBlocks_length E hE _ iv hiv hbs16
  have hcsflatlen :
      (cbcEncBlocks E iv (chunks16 (pkcs7pad pt))).flatten.length
        = 16 * (cbcEncBlocks E iv (chunks16 (pkcs7pad pt))).length :=
    flatten_length_16 _ hcs16
  have hcslen : (cbcEncBlocks E iv (chunks16 (pkcs7pad pt))).length
      = (chunks16 (pkcs7pad pt)).length := cbcEncBlocks_count E _ iv
  have hbsne : chunks16 (pkcs7pad pt) ≠ [] := by
    have hne : pkcs7pad pt ≠ [] := by
      intro h
      rw [h] at hpadpos
      simp at hpadpos
    rw [chunks16_cons_of_ne _ hne]
    simp
  have hbspos : 0 < (chunks16 (pkcs7pad pt)).length := List.length_pos.mpr hbsne
  have hctpos : 0 < (cbcEncBlocks E iv (chunks16 (pkcs7pad pt))).flatten.length := by
    omega
  have hctmod : (cbcEncBlocks E iv (chunks16 (pkcs7pad pt))).flatten.length % 16 = 0 := by
    omega
  have henc : cbcEncryptPkcs7 E iv pt
      = (cbcEncBlocks E iv (chunks16 (pkcs7pad pt))).flatten := rfl
  unfold decrypt_v1_book
  rw [henc]
  rw [if_neg (by simp [hiv])]
  rw [List.take_left' hiv, List.drop_left' hiv]
  unfold cbcDecryptPkcs7
  rw [if_pos ⟨hctmod, hctpos⟩]
  rw [chunks16_flatten_of_mem _ hcs16]
  rw [cbcDecBlocks_encBlocks E D hE hD _ iv hiv hbs16]
  rw [flatten_chunks16, pkcs7unpad_pad]

/-- Witness for C3: the round-trip evaluated on a concrete plaintext, IV and
an inverse block-cipher pair (the identity permutation). -/
theorem c3_v1_roundtrip_witness :
    decrypt_v1_book (fun b => b)
      (List.replicate 16 0 ++
        cbcEncryptPkcs7 (fun b => b) (List.replicate 16 0) [1, 2, 3])
      = Except.ok [1, 2, 3] :=
  c3_v1_roundtrip (fun b => b) (fun b => b) (List.replicate 16 0) [1, 2, 3]
    (by decide) (fun _ h => h) (fun _ _ => rfl)

/-! ## Claim C2: small key files -/

/-- C2 (confirmed): for every key file of fewer than 32 bytes and every device
id, key derivation returns the too-small error immediately and never
panics. -/
theorem c2_small_key_file_errors (aesDec : List Nat → List Nat → List Nat)
    (dat device : List Nat) (h : dat.length < 32) :
    extract_key_from_dat aesDec dat device = KeyOut.error KeyErr.tooSmall ∧
    extract_key_from_dat aesDec dat device ≠ KeyOut.panic := by
  unfold extract_key_from_dat
  rw [if_pos h]
  exact ⟨rfl, by simp⟩

/-- Witness for C2: a concrete 1-byte key file. -/
theorem c2_small_key_file_errors_witness :
    extract_key_from_dat (fun _ b => b) [0] [] = KeyOut.error KeyErr.tooSmall ∧
    extract_key_from_dat (fun _ b => b) [0] [] ≠ KeyOut.panic :=
  c2_small_key_file_errors (fun _ b => b) [0] [] (by decide)

/-! ## UTF-8 and key-extraction lemmas -/

/-- A decoded UTF-8 text has at most as many characters as bytes (fueled
version). -/
theorem utf8DecodeGo_length : ∀ (fuel : Nat) (l cs : List Nat),
    utf8DecodeGo fuel l = some cs → cs.length ≤ l.length := by
  intro fuel
  induction fuel with
  | zero =>
    intro l cs h
    cases l with
    | nil => simp [utf8DecodeGo] at h; simp [← h]
    | cons b rest => simp [utf8DecodeGo] at h
  | succ n ih =>
    intro l cs h
    cases l with
    | nil => simp [utf8DecodeGo] at h; simp [← h]
    | cons b rest =>
      unfold utf8DecodeGo at h
      repeat' split at h
      all_goals try exact Option.noConfusion h
      all_goals
        rw [Option.map_eq_some'] at h
      all_goals obtain ⟨cs', hcs', rfl⟩ := h
      all_goals have hle := ih _ _ hcs'
      all_goals simp only [List.length_cons] at hle ⊢
      all_goals omega

/-- A decoded UTF-8 text has at most as many characters as bytes. -/
theorem utf8Decode_length (l cs : List Nat) (h : utf8Decode l = some cs) :
    cs.length ≤ l.length :=
  utf8DecodeGo_length l.length l cs h

/-- A successful padded CBC decryption implies the ciphertext was nonempty
and block-aligned. -/
theorem cbcDecryptPkcs7_some_length (D : List Nat → List Nat) (iv ct pt : List Nat)
    (h : cbcDecryptPkcs7 D iv ct = some pt) :
    16 ≤ ct.length ∧ ct.length % 16 = 0 := by
  unfold cbcDecryptPkcs7 at h
  by_cases hc : ct.length % 16 = 0 ∧ 0 < ct.length
  · constructor
    · omega
    · exact hc.1
  · rw [if_neg hc] at h
    exact absurd h (by simp)

/-- The copy-into-zeroed-buffer step is the identity on 16-byte slices. -/
theorem copyZeroPad16_of_length (l : List Nat) (h : l.length = 16) :
    copyZeroPad16 l = l := by
  unfold copyZeroPad16
  rw [h]
  simp [List.take_of_length_le (by omega : l.length ≤ 16)]

/-- Characterisation of `extract_key_from_dat` once decryption has produced a
valid UTF-8 text of byte length at least 84: the result is the byte slice
`68..84` when both offsets are char boundaries, and a panic otherwise. -/
theorem extract_key_characterization (aesDec : List Nat → List Nat → List Nat)
    (dat device pt : List Nat)
    (hdec : cbcDecryptPkcs7 (aesDec (deviceKey device)) (dat.take 16) (dat.drop 16)
      = some pt)
    (hutf : (utf8Decode pt).isSome = true)
    (hlen : 84 ≤ pt.length) :
    extract_key_from_dat aesDec dat device =
      if isCharBoundary pt 68 && isCharBoundary pt 84 then
        KeyOut.ok (copyZeroPad16 ((pt.take 84).drop 68))
      else KeyOut.panic := by
  have hct := cbcDecryptPkcs7_some_length _ _ _ _ hdec
  have hdroplen : (dat.drop 16).length = dat.length - 16 := List.length_drop ..
  have hdat : ¬ dat.length < 32 := by omega
  obtain ⟨chars, hchars⟩ := Option.isSome_iff_exists.mp hutf
  unfold extract_key_from_dat
  rw [if_neg hdat]
  simp only [hdec, hchars]
  rw [if_neg (by omega)]

/-! ## Claim C1: the key slice -/

/-- C1 (amended; the claim's "character positions" fails, see the
counterexample): for every key file whose CBC/PKCS7 decryption under the
device-derived key yields valid UTF-8 text of at least 84 characters, with
byte offsets 68 and 84 falling on character boundaries, key derivation
returns the 16-byte content key formed from byte offsets 68 through 84
(exclusive) of the text's UTF-8 encoding; the slice is exactly 16 bytes, so
its zero-padding branch never engages. -/
theorem c1_byte_slice_key (aesDec : List Nat → List Nat → List Nat)
    (dat device pt chars : List Nat)
    (hdec : cbcDecryptPkcs7 (aesDec (deviceKey device)) (dat.take 16) (dat.drop 16)
      = some pt)
    (hutf : utf8Decode pt = some chars)
    (hchars : 84 ≤ chars.length)
    (hb68 : isCharBoundary pt 68 = true)
    (hb84 : isCharBoundary pt 84 = true) :
    extract_key_from_dat aesDec dat device = KeyOut.ok ((pt.take 84).drop 68) ∧
    ((pt.take 84).drop 68).length = 16 := by
  have hbytes : 84 ≤ pt.length := le_trans hchars (utf8Decode_length pt chars hutf)
  have hslice : ((pt.take 84).drop 68).length = 16 := by
    simp [List.length_drop, List.length_take]
    omega
  refine ⟨?_, hslice⟩
  rw [extract_key_characterization aesDec dat device pt hdec (by rw [hutf]; rfl) hbytes]
  rw [hb68, hb84]
  simp [copyZeroPad16_of_length _ hslice]

set_option maxRecDepth 100000

/-- A plaintext refuting C1 as stated: its first character is two bytes long,
so byte offsets and character offsets disagree.  Concretely it is the UTF-8
encoding of `é` followed by 84 ASCII letters. -/
def cexText : List Nat := [0xC3, 0xA9] ++ (List.range 84).map (fun i => 0x41 + i % 26)

/-- The code points of `cexText`: 85 characters. -/
def cexChars : List Nat := 0xE9 :: (List.range 84).map (fun i => 0x41 + i % 26)

/-- Counterexample IV (all zeroes). -/
def cexIV : List Nat := List.replicate 16 0

/-- Counterexample block cipher: the identity permutation on 16-byte blocks,
ignoring the key (a legitimate instantiation of the abstract cipher). -/
def cexD : List Nat → List Nat → List Nat := fun _ b => b

/-- A key file whose decryption under `cexD` yields `cexText`. -/
def cexDat : List Nat := cexIV ++ cbcEncryptPkcs7 (fun b => b) cexIV cexText

/-- Counterexample device id bytes. -/
def cexDevice : List Nat := List.replicate 16 1

/-- Counterexample to C1 as stated: decrypting `cexDat` yields valid UTF-8
text of 85 ≥ 84 characters, yet the key the code derives (byte offsets 68–84)
differs from the key formed from character positions 68–84 that the claim
describes. -/
theorem c1_counterexample :
    cbcDecryptPkcs7 (cexD (deviceKey cexDevice)) (cexDat.take 16) (cexDat.drop 16)
      = some cexText ∧
    utf8Decode cexText = some cexChars ∧
    84 ≤ cexChars.length ∧
    specCharSliceKey cexText
      = some (copyZeroPad16 (utf8Encode ((cexChars.take 84).drop 68))) ∧
    extract_key_from_dat cexD cexDat cexDevice
      = KeyOut.ok (copyZeroPad16 ((cexText.take 84).drop 68)) ∧
    copyZeroPad16 ((cexText.take 84).drop 68)
      ≠ copyZeroPad16 (utf8Encode ((cexChars.take 84).drop 68)) := by
  decide

/-- Witness for the amended C1 on an all-ASCII decrypted text. -/
theorem c1_byte_slice_key_witness :
    extract_key_from_dat cexD
        (cexIV ++ cbcEncryptPkcs7 (fun b => b) cexIV ((List.range 96).map (fun i => 0x30 + i % 10)))
        cexDevice
      = KeyOut.ok ((((List.range 96).map (fun i => 0x30 + i % 10)).take 84).drop 68) ∧
    ((((List.range 96).map (fun i => 0x30 + i % 10)).take 84).drop 68).length = 16 :=
  c1_byte_slice_key cexD
    (cexIV ++ cbcEncryptPkcs7 (fun b => b) cexIV ((List.range 96).map (fun i => 0x30 + i % 10)))
    cexDevice
    ((List.range 96).map (fun i => 0x30 + i % 10))
    ((List.range 96).map (fun i => 0x30 + i % 10))
    (by decide) (by decide) (by decide) (by decide) (by decide)

/-! ## Claim C9: byte-offset slicing, boundaries and panics -/

/-- C9 (confirmed): the content-key slice is a byte-offset slice at `68..84`
of the decrypted UTF-8 text.  For every decrypted plaintext of at least 84
bytes whose byte offsets 68 and 84 both fall on character boundaries,
extraction yields exactly the 16-byte slice (zero-padding never engages); if
either offset falls inside a multi-byte character, the slice panics instead
of returning an error. -/
theorem c9_key_slice_byte_offsets (aesDec : List Nat → List Nat → List Nat)
    (dat device pt : List Nat)
    (hdec : cbcDecryptPkcs7 (aesDec (deviceKey device)) (dat.take 16) (dat.drop 16)
      = some pt)
    (hutf : (utf8Decode pt).isSome = true)
    (hlen : 84 ≤ pt.length) :
    (isCharBoundary pt 68 = true ∧ isCharBoundary pt 84 = true →
      extract_key_from_dat aesDec dat device = KeyOut.ok ((pt.take 84).drop 68) ∧
      ((pt.take 84).drop 68).length = 16) ∧
    (¬(isCharBoundary pt 68 = true ∧ isCharBoundary pt 84 = true) →
      extract_key_from_dat aesDec dat device = KeyOut.panic) := by
  have hchar := extract_key_characterization aesDec dat device pt hdec hutf hlen
  have hslice : ((pt.take 84).drop 68).length = 16 := by
    simp [List.length_drop, List.length_take]
    omega
  constructor
  · intro ⟨h68, h84⟩
    refine ⟨?_, hslice⟩
    rw [hchar, h68, h84]
    simp [copyZeroPad16_of_length _ hslice]
  · intro hnb
    rw [hchar]
    rw [if_neg]
    intro hb
    rw [Bool.and_eq_true] at hb
    exact hnb hb

/-- A plaintext whose byte offset 68 falls inside a two-byte character: 67
ASCII letters, then `é` straddling offsets 67–68, then 17 ASCII letters. -/
def panicText : List Nat :=
  (List.range 67).map (fun _ => 0x41) ++ [0xC3, 0xA9] ++ (List.range 17).map (fun _ => 0x42)

/-- A key file whose decryption under `cexD` yields `panicText`. -/
def panicDat : List Nat := cexIV ++ cbcEncryptPkcs7 (fun b => b) cexIV panicText

/-- Witness for C9: on `panicDat`, key extraction panics. -/
theorem c9_key_slice_byte_offsets_witness :
    extract_key_from_dat cexD panicDat cexDevice = KeyOut.panic :=
  (c9_key_slice_byte_offsets cexD panicDat cexDevice panicText
    (by decide) (by decide) (by decide)).2 (by decide)

/-! ## Claim C4: V11 structure preservation -/

/-- C4 (confirmed): for every V11 input archive and content key, V11
decryption preserves entry count and entry names in order; an entry whose
individual decryption fails keeps its original bytes (never aborting the
book); and every entry is written with deflate compression. -/
theorem c4_v11_structure_preserved (aesDecK : List Nat → List Nat)
    (entries : List ZipEntry) :
    (decrypt_v11_book aesDecK entries).length = entries.length ∧
    (∀ i : Nat, ((decrypt_v11_book aesDecK entries)[i]?).map OutEntry.name
      = (entries[i]?).map ZipEntry.name) ∧
    (∀ i : Nat, ∀ e : ZipEntry, entries[i]? = some e →
      decrypt_v11_file_content aesDecK e.data = none →
      ((decrypt_v11_book aesDecK entries)[i]?).map OutEntry.data = some e.data) ∧
    (∀ o ∈ decrypt_v11_book aesDecK entries, o.method = CompressionMethod.deflated) := by
  refine ⟨?_, ?_, ?_, ?_⟩
  · simp [decrypt_v11_book]
  · intro i
    simp only [decrypt_v11_book, List.getElem?_map, Option.map_map]
    rfl
  · intro i e he hf
    simp only [decrypt_v11_book, List.getElem?_map, he, Option.map_some', hf]
  · intro o ho
    simp only [decrypt_v11_book, List.mem_map] at ho
    obtain ⟨e, _, rfl⟩ := ho
    rfl

/-- Witness for C4: a one-entry archive whose entry is too short to decrypt
is preserved byte-for-byte. -/
theorem c4_v11_structure_preserved_witness :
    ((decrypt_v11_book (fun _ => []) [⟨"mimetype", [1, 2, 3]⟩])[0]?).map OutEntry.data
      = some [1, 2, 3] :=
  (c4_v11_structure_preserved (fun _ => []) [⟨"mimetype", [1, 2, 3]⟩]).2.2.1 0
    ⟨"mimetype", [1, 2, 3]⟩ (by decide) (by decide)

/-! ## Claim C6: the retry loop -/

/-- C6 (code bug): the retry counter is never decremented, so on an input
whose every attempt fails with a retryable message (here "timeout"), the
`while retries > 0` loop of `process_single_book` never terminates: after any
number `fuel` of observed iterations it is still running.  The spec's bounded
attempt budget of 3 is the evident intent (`retries > 1` guard, the
"attempts left" message, the `unreachable!()` after the loop), but the code
loops forever. -/
theorem c6_retry_loop_diverges : ∀ fuel : Nat,
    process_single_book (fun _ => Except.error "timeout") fuel = none := by
  have hr : is_retryable_error "timeout" = true := by decide
  have hgo : ∀ (fuel k : Nat),
      process_single_book_go (fun _ => Except.error "timeout") 3 k fuel = none := by
    intro fuel
    induction fuel with
    | zero => intro k; rfl
    | succ n ih =>
      intro k
      show (if 0 < 3 then _ else _) = none
      rw [if_pos (by omega)]
      simp only [hr]
      rw [if_pos ⟨by omega, trivial⟩]
      exact ih (k + 1)
  intro fuel
  exact hgo fuel 0

/-! ## Claim C7: the resume filter -/

/-- C7 (confirmed): in resume mode without force, every book whose id appears
in the loaded state's completed list is excluded from the work set, whatever
its `alreadyDecrypted` status (i.e. whether or not its output file still
exists). -/
theorem c7_resume_excludes_completed (completed : List String)
    (books : List BookLite) (b : BookLite) (h : b.id ∈ completed) :
    b ∉ books_to_process false true completed books := by
  intro hmem
  have hk := List.of_mem_filter hmem
  simp [keepBook] at hk
  exact hk h

/-- Witness for C7: the completed book "A" is excluded even though its
`alreadyDecrypted` flag is false (its output file no longer exists). -/
theorem c7_resume_excludes_completed_witness :
    (⟨"A", false⟩ : BookLite) ∉
      books_to_process false true ["A"] [⟨"A", false⟩, ⟨"B", false⟩] :=
  c7_resume_excludes_completed ["A"] [⟨"A", false⟩, ⟨"B", false⟩] ⟨"A", false⟩
    (by simp)

/-! ## Claim C8: output naming and location -/

/-- Counterexample to C8 as stated: with an explicit output directory
configured, the claim places the output under it, but `get_output_path`
ignores all configuration and writes into the current working directory. -/
theorem c8_counterexample :
    get_output_path "/cwd" "A" BookFormat.epub = "/cwd/A_decrypted.epub" ∧
    specOutputPath (some "/out") (some "/lib") "/parent" "A" BookFormat.epub
      = "/out/A_decrypted.epub" ∧
    get_output_path "/cwd" "A" BookFormat.epub
      ≠ specOutputPath (some "/out") (some "/lib") "/parent" "A" BookFormat.epub := by
  refine ⟨?_, ?_, ?_⟩ <;> decide

/-- C8 (amended): the output file is named `{id}_decrypted.{extension}`; the
CLI writes it to the process's current working directory regardless of any
configured output directory or library path, while the GUI writes it to the
explicit output directory if set, else the book directory's parent, else the
book directory itself. -/
theorem c8_output_locations (cwd id bpath : String) (fmt : BookFormat)
    (od bp : Option String) :
    get_output_path cwd id fmt = pathJoin cwd (get_output_filename id fmt) ∧
    (∀ d, od = some d →
      gui_output_path od bp bpath id fmt = pathJoin d (get_output_filename id fmt)) ∧
    (od = none → ∀ p, bp = some p →
      gui_output_path od bp bpath id fmt = pathJoin p (get_output_filename id fmt)) ∧
    (od = none → bp = none →
      gui_output_path od bp bpath id fmt = pathJoin bpath (get_output_filename id fmt)) ∧
    get_output_filename id fmt = id ++ "_decrypted." ++ fmt.as_str := by
  refine ⟨rfl, ?_, ?_, ?_, rfl⟩
  · intro d hd
    rw [hd]
    rfl
  · intro h1 p hp
    rw [h1, hp]
    rfl
  · intro h1 h2
    rw [h1, h2]
    rfl

/-- Witness for the amended C8: the GUI honours an explicit output
directory. -/
theorem c8_output_locations_witness :
    gui_output_path (some "/out") none "/bookdir" "A" BookFormat.epub
      = pathJoin "/out" (get_output_filename "A" BookFormat.epub) :=
  (c8_output_locations "/cwd" "A" "/bookdir" BookFormat.epub (some "/out") none).2.1
    "/out" rfl

/-! ## Claim C10: the `in_progress` invariant -/

/-- Folding one result never touches `in_progress`. -/
theorem recordResult_in_progress (s : ProcessingState)
    (idr : String × Except String Unit) :
    (recordResult s idr).in_progress = s.in_progress := by
  rcases idr with ⟨id, r⟩
  cases r <;> rfl

/-- The batch scheduler never touches `in_progress`. -/
theorem process_books_batch_in_progress :
    ∀ (results : List (String × Except String Unit)) (s : ProcessingState),
      (process_books_batch s results).in_progress = s.in_progress
  | [], _ => rfl
  | r :: rest, s => by
    show (process_books_batch (recordResult s r) rest).in_progress = _
    rw [process_books_batch_in_progress rest (recordResult s r)]
    exact recordResult_in_progress s r

/-- The interactive scheduler never touches `in_progress`. -/
theorem process_books_interactive_in_progress (cont : Nat → Bool) :
    ∀ (results : List (String × Except String Unit)) (s : ProcessingState) (k : Nat),
      (process_books_interactive cont s k results).in_progress = s.in_progress
  | [], _, _ => rfl
  | (id, .ok _) :: rest, s, k => by
    show (process_books_interactive cont _ k rest).in_progress = _
    rw [process_books_interactive_in_progress cont rest _ k]
  | (id, .error e) :: rest, s, k => by
    show (if cont k then process_books_interactive cont _ (k + 1) rest else _).in_progress
        = _
    by_cases hc : cont k = true
    · rw [if_pos hc, process_books_interactive_in_progress cont rest _ (k + 1)]
    · rw [if_neg hc]

/-- C10 (confirmed): starting from a state with empty `in_progress` (as the
default state is), every state the batch scheduler reaches — including each
checkpointed prefix — and every state the interactive scheduler produces
still has an empty `in_progress`: both schedulers append only to `completed`
and `failed`. -/
theorem c10_in_progress_empty (s : ProcessingState)
    (results : List (String × Except String Unit)) (cont : Nat → Bool) (n k : Nat)
    (h : s.in_progress = []) :
    (process_books_batch s (results.take n)).in_progress = [] ∧
    (process_books_interactive cont s k results).in_progress = [] := by
  constructor
  · rw [process_books_batch_in_progress]
    exact h
  · rw [process_books_interactive_in_progress]
    exact h

/-- Witness for C10: a concrete run with one success and one failure. -/
theorem c10_in_progress_empty_witness :
    (process_books_batch ProcessingState.mkDefault
      ([("A", Except.ok ()), ("B", Except.error "bad padding")].take 2)).in_progress = [] ∧
    (process_books_interactive (fun _ => true) ProcessingState.mkDefault 0
      [("A", Except.ok ()), ("B", Except.error "bad padding")]).in_progress = [] :=
  c10_in_progress_empty ProcessingState.mkDefault
    [("A", Except.ok ()), ("B", Except.error "bad padding")] (fun _ => true) 2 0 rfl

/-! ## Claim C5: filename resolution -/

/-- First-of-two option choice, mirroring how the loop's `plain_epub` /
`plain_pdf` accumulators take precedence over later finds. -/
def optOr (a b : Option String) : Option String :=
  match a with
  | some x => some x
  | none => b

/-- One-step unfolding of the resolution loop. -/
theorem detectLoop_cons (book_id f : String) (rest : List String) (pe pp : Option String) :
    detectLoop book_id (f :: rest) pe pp =
      if strStartsWith f book_id then
        match rustExtension f with
        | some ext =>
          if strToLower ext = "epub" then
            if strContains f ".v" then (BookFormat.epub, f)
            else detectLoop book_id rest (if pe.isNone then some f else pe) pp
          else if strToLower ext = "pdf" then
            if strContains f ".v" then (BookFormat.pdf, f)
            else detectLoop book_id rest pe (if pp.isNone then some f else pp)
          else detectLoop book_id rest pe pp
        | none => detectLoop book_id rest pe pp
      else detectLoop book_id rest pe pp := rfl

/-- Characterisation of the resolution loop: the first version-marked book
file wins outright; otherwise the accumulated (or first) plain epub, then the
accumulated (or first) plain pdf, then the default `{id}.epub`. -/
theorem detectLoop_eq (book_id : String) :
    ∀ (files : List String) (pe pp : Option String),
      detectLoop book_id files pe pp =
        (match files.find? (isVersionedBookFile book_id) with
         | some f => (detFmt f, f)
         | none =>
           match optOr pe (files.find? (isPlainEpub book_id)) with
           | some f => (BookFormat.epub, f)
           | none =>
             match optOr pp (files.find? (isPlainPdf book_id)) with
             | some f => (BookFormat.pdf, f)
             | none => (BookFormat.epub, book_id ++ ".epub")) := by
  intro files
  induction files with
  | nil =>
    intro pe pp
    cases pe <;> cases pp <;> rfl
  | cons f rest ih =>
    intro pe pp
    rw [detectLoop_cons]
    by_cases hsw : strStartsWith f book_id = true
    · rw [if_pos hsw]
      cases hext : rustExtension f with
      | none =>
        have hv : isVersionedBookFile book_id f = false := by
          simp [isVersionedBookFile, hext]
        have hpef : isPlainEpub book_id f = false := by simp [isPlainEpub, hext]
        have hppf : isPlainPdf book_id f = false := by simp [isPlainPdf, hext]
        change detectLoop book_id rest pe pp = _
        rw [ih pe pp, List.find?_cons_of_neg _ (by simp [hv]),
          List.find?_cons_of_neg _ (by simp [hpef]),
          List.find?_cons_of_neg _ (by simp [hppf])]
      | some e =>
        change (if strToLower e = "epub" then
            if strContains f ".v" then (BookFormat.epub, f)
            else detectLoop book_id rest (if pe.isNone then some f else pe) pp
          else if strToLower e = "pdf" then
            if strContains f ".v" then (BookFormat.pdf, f)
            else detectLoop book_id rest pe (if pp.isNone then some f else pp)
          else detectLoop book_id rest pe pp) = _
        by_cases heep : strToLower e = "epub"
        · rw [if_pos heep]
          by_cases hcv : strContains f ".v" = true
          · rw [if_pos hcv]
            have hv : isVersionedBookFile book_id f = true := by
              simp [isVersionedBookFile, hsw, hext, heep, hcv]
            rw [List.find?_cons_of_pos _ hv]
            have hfmt : detFmt f = BookFormat.epub := by simp [detFmt, hext, heep]
            show (BookFormat.epub, f) = (detFmt f, f)
            rw [hfmt]
          · rw [if_neg hcv]
            rw [Bool.not_eq_true] at hcv
            have hv : isVersionedBookFile book_id f = false := by
              simp [isVersionedBookFile, hcv]
            have hpef : isPlainEpub book_id f = true := by
              simp [isPlainEpub, hsw, hext, heep, hcv]
            have hppf : isPlainPdf book_id f = false := by
              simp [isPlainPdf, hext, heep]
            rw [ih (if pe.isNone then some f else pe) pp,
              List.find?_cons_of_neg _ (by simp [hv]),
              List.find?_cons_of_pos _ hpef,
              List.find?_cons_of_neg _ (by simp [hppf])]
            cases rest.find? (isVersionedBookFile book_id) with
            | some g => rfl
            | none => cases pe <;> rfl
        · rw [if_neg heep]
          by_cases hpdf : strToLower e = "pdf"
          · rw [if_pos hpdf]
            by_cases hcv : strContains f ".v" = true
            · rw [if_pos hcv]
              have hv : isVersionedBookFile book_id f = true := by
                simp [isVersionedBookFile, hsw, hext, hpdf, hcv]
              rw [List.find?_cons_of_pos _ hv]
              have hfmt : detFmt f = BookFormat.pdf := by simp [detFmt, hext, heep, hpdf]
              show (BookFormat.pdf, f) = (detFmt f, f)
              rw [hfmt]
            · rw [if_neg hcv]
              rw [Bool.not_eq_true] at hcv
              have hv : isVersionedBookFile book_id f = false := by
                simp [isVersionedBookFile, hcv]
              have hpef : isPlainEpub book_id f = false := by
                simp [isPlainEpub, hext, heep]
              have hppf : isPlainPdf book_id f = true := by
                simp [isPlainPdf, hsw, hext, hpdf, hcv]
              rw [ih pe (if pp.isNone then some f else pp),
                List.find?_cons_of_neg _ (by simp [hv]),
                List.find?_cons_of_neg _ (by simp [hpef]),
                List.find?_cons_of_pos _ hppf]
              cases rest.find? (isVersionedBookFile book_id) with
              | some g => rfl
              | none =>
                cases pe with
                | some x => rfl
                | none =>
                  cases rest.find? (isPlainEpub book_id) with
                  | some y => rfl
                  | none => cases pp <;> rfl
          · rw [if_neg hpdf]
            have hv : isVersionedBookFile book_id f = false := by
              simp [isVersionedBookFile, hext, heep, hpdf]
            have hpef : isPlainEpub book_id f = false := by
              simp [isPlainEpub, hext, heep]
            have hppf : isPlainPdf book_id f = false := by
              simp [isPlainPdf, hext, hpdf]
            rw [ih pe pp, List.find?_cons_of_neg _ (by simp [hv]),
              List.find?_cons_of_neg _ (by simp [hpef]),
              List.find?_cons_of_neg _ (by simp [hppf])]
    · rw [if_neg hsw]
      rw [Bool.not_eq_true] at hsw
      have hv : isVersionedBookFile book_id f = false := by
        simp [isVersionedBookFile, hsw]
      have hpef : isPlainEpub book_id f = false := by simp [isPlainEpub, hsw]
      have hppf : isPlainPdf book_id f = false := by simp [isPlainPdf, hsw]
      rw [ih pe pp, List.find?_cons_of_neg _ (by simp [hv]),
        List.find?_cons_of_neg _ (by simp [hpef]),
        List.find?_cons_of_neg _ (by simp [hppf])]

/-- Counterexample to C5 as stated: in a book directory with no version-marked
and no plain content file, resolution does not fail with `InvalidPath` — it
returns `Ok` with the default filename `{id}.epub` (failure surfaces later,
when that file is read). -/
theorem c5_counterexample :
    (([] : List String).find? (isVersionedBookFile "A") = none) ∧
    (([] : List String).find? (isPlainEpub "A") = none) ∧
    (([] : List String).find? (isPlainPdf "A") = none) ∧
    detect_format_and_filename [] "A" = Except.ok (BookFormat.epub, "A.epub") := by
  refine ⟨rfl, rfl, rfl, ?_⟩
  decide

/-- C5 (amended; the claim's `InvalidPath` failure branch fails, see the
counterexample): resolution returns the first version-marked content file in
preference to any plain one; with no version-marked file it falls back to the
first plain epub, then the first plain pdf; and with neither it returns `Ok`
with the default filename `{id}.epub` instead of failing. -/
theorem c5_resolution_preference (files : List String) (book_id : String) :
    (∀ f, files.find? (isVersionedBookFile book_id) = some f →
      detect_format_and_filename files book_id = Except.ok (detFmt f, f)) ∧
    (files.find? (isVersionedBookFile book_id) = none →
      ∀ f, files.find? (isPlainEpub book_id) = some f →
        detect_format_and_filename files book_id = Except.ok (BookFormat.epub, f)) ∧
    (files.find? (isVersionedBookFile book_id) = none →
      files.find? (isPlainEpub book_id) = none →
      ∀ f, files.find? (isPlainPdf book_id) = some f →
        detect_format_and_filename files book_id = Except.ok (BookFormat.pdf, f)) ∧
    (files.find? (isVersionedBookFile book_id) = none →
      files.find? (isPlainEpub book_id) = none →
      files.find? (isPlainPdf book_id) = none →
        detect_format_and_filename files book_id
          = Except.ok (BookFormat.epub, book_id ++ ".epub")) := by
  have hd := detectLoop_eq book_id files none none
  refine ⟨?_, ?_, ?_, ?_⟩
  · intro f hf
    unfold detect_format_and_filename
    rw [hd, hf]
  · intro hv f hf
    unfold detect_format_and_filename
    rw [hd, hv]
    show Except.ok (match optOr none (files.find? (isPlainEpub book_id)) with
      | some f => (BookFormat.epub, f)
      | none =>
        match optOr none (files.find? (isPlainPdf book_id)) with
        | some f => (BookFormat.pdf, f)
        | none => (BookFormat.epub, book_id ++ ".epub")) = _
    show Except.ok (match files.find? (isPlainEpub book_id) with
      | some f => (BookFormat.epub, f)
      | none =>
        match optOr none (files.find? (isPlainPdf book_id)) with
        | some f => (BookFormat.pdf, f)
        | none => (BookFormat.epub, book_id ++ ".epub")) = _
    rw [hf]
  · intro hv he f hf
    unfold detect_format_and_filename
    rw [hd, hv]
    show Except.ok (match files.find? (isPlainEpub book_id) with
      | some f => (BookFormat.epub, f)
      | none =>
        match files.find? (isPlainPdf book_id) with
        | some f => (BookFormat.pdf, f)
        | none => (BookFormat.epub, book_id ++ ".epub")) = _
    rw [he, hf]
  · intro hv he hp
    unfold detect_format_and_filename
    rw [hd, hv]
    show Except.ok (match files.find? (isPlainEpub book_id) with
      | some f => (BookFormat.epub, f)
      | none =>
        match files.find? (isPlainPdf book_id) with
        | some f => (BookFormat.pdf, f)
        | none => (BookFormat.epub, book_id ++ ".epub")) = _
    rw [he, hp]

/-- Witness for the amended C5: with a plain `A.epub` listed before a
version-marked `A.v11.epub`, resolution still returns the version-marked
file. -/
theorem c5_resolution_preference_witness :
    detect_format_and_filename ["A.epub", "A.v11.epub"] "A"
      = Except.ok (detFmt "A.v11.epub", "A.v11.epub") :=
  (c5_resolution_preference ["A.epub", "A.v11.epub"] "A").1 "A.v11.epub" (by decide)
